import Mathlib

/-!
Verification of the Event validity and scheduling model of `aldryn_events`
(`aldryn_events/models.py` and `aldryn_events/urls.py`), as a shallow
embedding in Lean 4.

Calendar dates and times-of-day are modelled after Python's `datetime.date`
and `datetime.time`: a date is a `(year, month, day)` triple compared
lexicographically, and date subtraction yields the difference of proleptic
Gregorian ordinals (as in CPython's `date.toordinal`).
-/

namespace AldrynEvents

/-- Model of `datetime.date`: a `(year, month, day)` triple. -/
structure Date where
  year : Nat
  month : Nat
  day : Nat
deriving DecidableEq

/-- Model of `datetime.time`: hour, minute, second, microsecond. -/
structure Time where
  hour : Nat
  minute : Nat
  second : Nat
  microsecond : Nat
deriving DecidableEq

/-- Lexicographic key of a date; CPython compares dates by their
`(year, month, day)` tuple. -/
def Date.lexKey (d : Date) : Lex (Nat × Lex (Nat × Nat)) :=
  toLex (d.year, toLex (d.month, d.day))

theorem Date.lexKeyDate_injective : Function.Injective Date.lexKey := by
  intro a b h
  simp only [Date.lexKey, toLex_inj, Prod.mk.injEq] at h
  cases a; cases b; simp_all

instance : LinearOrder Date := LinearOrder.lift' Date.lexKey Date.lexKeyDate_injective

/-- Lexicographic key of a time-of-day; CPython compares times by their
`(hour, minute, second, microsecond)` tuple. -/
def Time.lexKey (t : Time) : Lex (Nat × Lex (Nat × Lex (Nat × Nat))) :=
  toLex (t.hour, toLex (t.minute, toLex (t.second, t.microsecond)))

theorem Time.lexKeyTime_injective : Function.Injective Time.lexKey := by
  intro a b h
  simp only [Time.lexKey, toLex_inj, Prod.mk.injEq] at h
  cases a; cases b; simp_all

instance : LinearOrder Time := LinearOrder.lift' Time.lexKey Time.lexKeyTime_injective

theorem Date.le_def (a b : Date) : a ≤ b ↔ a.lexKey ≤ b.lexKey := Iff.rfl

theorem Date.lt_def (a b : Date) : a < b ↔ a.lexKey < b.lexKey := Iff.rfl

/-- Gregorian leap-year rule (CPython `calendar.isleap`). -/
def isLeap (y : Nat) : Bool :=
  y % 4 == 0 && (y % 100 != 0 || y % 400 == 0)

/-- Days in each month, parameterised by the leap flag (CPython `_days_in_month`). -/
def daysInMonthB (leap : Bool) : Nat → Nat
  | 1 => 31
  | 2 => if leap then 29 else 28
  | 3 => 31
  | 4 => 30
  | 5 => 31
  | 6 => 30
  | 7 => 31
  | 8 => 31
  | 9 => 30
  | 10 => 31
  | 11 => 30
  | 12 => 31
  | _ => 0

def daysInMonth (y m : Nat) : Nat := daysInMonthB (isLeap y) m

/-- Number of days in the months strictly before month `m`
(CPython `_days_before_month`). -/
def daysBeforeMonthB (leap : Bool) : Nat → Nat
  | 0 => 0
  | m + 1 => daysBeforeMonthB leap m + daysInMonthB leap m

def daysBeforeMonth (y m : Nat) : Nat := daysBeforeMonthB (isLeap y) m

/-- Number of days before January 1 of year `y`
(CPython `_days_before_year`). -/
def daysBeforeYear (y : Nat) : Nat :=
  let n := y - 1
  n * 365 + n / 4 - n / 100 + n / 400

def daysInYear (y : Nat) : Nat := if isLeap y then 366 else 365

/-- Proleptic Gregorian ordinal of a date (CPython `date.toordinal`). -/
def Date.toOrdinal (d : Date) : Nat :=
  daysBeforeYear d.year + daysBeforeMonth d.year d.month + d.day

/-- A date that `datetime.date` would actually construct. -/
def Date.Valid (d : Date) : Prop :=
  1 ≤ d.year ∧ 1 ≤ d.month ∧ d.month ≤ 12 ∧ 1 ≤ d.day ∧ d.day ≤ daysInMonth d.year d.month

instance (d : Date) : Decidable d.Valid := by
  unfold Date.Valid; infer_instance

/-- One of the validation errors raised by `Event.clean` /
`EventCoordinator.clean`, in source order. -/
inductive ValidationError where
  | startEndOrder
  | sameDayTimesRequired
  | sameDayTimeOrder
  | registrationMutex
  | deadlineRequired
  | coordinatorEmailMissing
deriving DecidableEq

/-- The fields of the `Event` model that the validity / scheduling engine
reads (`models.py`). Date and time fields are `DateField` / `TimeField`
values (`null=True` fields become `Option`); `register_link` is a `URLField`
with `default=''`; `registration_deadline_at` and `publish_at` are
`DateTimeField`s, modelled as points on an integer timeline. `pk` is the
database identity. -/
structure Event where
  pk : Nat
  start_date : Date
  start_time : Option Time
  end_date : Option Date
  end_time : Option Time
  is_published : Bool
  publish_at : Int
  register_link : String
  enable_registration : Bool
  registration_deadline_at : Option Int
deriving DecidableEq

/-- The date/time block of `Event.clean` (models.py lines 130-149): runs only
when both dates are set (`start_date` is a required field, hence always
truthy); rejects `end_date < start_date`; for equal dates requires both
times (`datetime.time` values are truthy in Python 3, including midnight)
and requires `start_time` strictly before `end_time`. -/
def Event.dateClean (e : Event) : Option ValidationError :=
  match e.end_date with
  | none => none
  | some ed =>
    if ed < e.start_date then some .startEndOrder
    else if e.start_date = ed then
      match e.end_time, e.start_time with
      | some et, some st =>
        if et < st ∨ st = et then some .sameDayTimeOrder else none
      | _, _ => some .sameDayTimesRequired
    else none

/-- The registration block of `Event.clean` (models.py lines 151-159):
`enable_registration` together with a non-empty `register_link` is rejected;
`enable_registration` without a `registration_deadline_at` is rejected. -/
def Event.registrationClean (e : Event) : Option ValidationError :=
  if e.enable_registration && !(e.register_link == "") then
    some .registrationMutex
  else if e.enable_registration && e.registration_deadline_at.isNone then
    some .deadlineRequired
  else none

/-- `Event.clean`: the date/time checks run first and short-circuit
(raising propagates), then the registration checks. `none` means the event
validates. -/
def Event.clean (e : Event) : Option ValidationError :=
  match e.dateClean with
  | some err => some err
  | none => e.registrationClean

/-- `Event.days` (models.py lines 167-187) on already-normalized field
values: `end_date = self.end_date or self.start_date`, then
`(end_date - self.start_date).days + 1`, where Python date subtraction is
the difference of Gregorian ordinals. -/
def Event.days (e : Event) : Int :=
  (((e.end_date.getD e.start_date).toOrdinal : Int)
    - (e.start_date.toOrdinal : Int)) + 1

/-- `Event.takes_single_day` (models.py lines 189-192). -/
def Event.takes_single_day (e : Event) : Bool := e.days == 1

/-- `Event.is_registration_deadline_passed` (models.py lines 194-197):
`not (self.registration_deadline_at and self.registration_deadline_at >
timezone.now())`, with the current instant passed explicitly. -/
def Event.is_registration_deadline_passed (e : Event) (now : Int) : Bool :=
  match e.registration_deadline_at with
  | none => true
  | some d => !(now < d)

/-! ### Calendar arithmetic lemmas -/

theorem daysBeforeMonthB_mono (b : Bool) {m n : Nat} (h : m ≤ n) :
    daysBeforeMonthB b m ≤ daysBeforeMonthB b n := by
  induction n with
  | zero => simp_all
  | succ k ih =>
    by_cases hmk : m ≤ k
    · exact le_trans (ih hmk) (by simp only [daysBeforeMonthB]; omega)
    · have hm : m = k + 1 := by omega
      subst hm
      exact Nat.le_refl _

theorem daysBeforeMonthB_thirteen (b : Bool) :
    daysBeforeMonthB b 13 = if b then 366 else 365 := by
  cases b <;> rfl

theorem daysBeforeMonth_add_daysInMonth_le (y m : Nat) (h1 : 1 ≤ m) (h12 : m ≤ 12) :
    daysBeforeMonth y m + daysInMonth y m ≤ daysInYear y := by
  have step : daysBeforeMonth y m + daysInMonth y m = daysBeforeMonthB (isLeap y) (m + 1) := rfl
  have mono := daysBeforeMonthB_mono (isLeap y) (show m + 1 ≤ 13 by omega)
  rw [daysBeforeMonthB_thirteen] at mono
  unfold daysInYear
  omega

theorem daysBeforeYear_succ (y : Nat) (hy : 1 ≤ y) :
    daysBeforeYear (y + 1) = daysBeforeYear y + daysInYear y := by
  obtain ⟨n, rfl⟩ : ∃ n, y = n + 1 := ⟨y - 1, by omega⟩
  simp only [daysBeforeYear, daysInYear, isLeap, Nat.add_sub_cancel]
  rw [Nat.succ_div n 4, Nat.succ_div n 100, Nat.succ_div n 400]
  have h41 : n / 100 ≤ n / 4 := Nat.div_le_div_left (by norm_num) (by norm_num)
  have h42 : (n + 1) % 100 = 0 → (n + 1) % 4 = 0 := by
    intro h
    have : (n + 1) % 4 = ((n + 1) % 100) % 4 := (Nat.mod_mod_of_dvd _ (by norm_num)).symm
    omega
  have h43 : (n + 1) % 400 = 0 → (n + 1) % 100 = 0 := by
    intro h
    have : (n + 1) % 100 = ((n + 1) % 400) % 100 := (Nat.mod_mod_of_dvd _ (by norm_num)).symm
    omega
  simp only [Nat.dvd_iff_mod_eq_zero, Nat.beq_eq, bne]
  by_cases h4 : (n + 1) % 4 = 0 <;> by_cases h100 : (n + 1) % 100 = 0 <;>
    by_cases h400 : (n + 1) % 400 = 0 <;>
    simp_all <;> omega

theorem daysBeforeYear_add_daysInYear_le (y1 y2 : Nat) (h1 : 1 ≤ y1) (h : y1 < y2) :
    daysBeforeYear y1 + daysInYear y1 ≤ daysBeforeYear y2 := by
  induction y2 with
  | zero => omega
  | succ k ih =>
    rcases Nat.lt_succ_iff_lt_or_eq.mp h with h' | rfl
    · have hk : 1 ≤ k := by omega
      calc daysBeforeYear y1 + daysInYear y1 ≤ daysBeforeYear k := ih h'
        _ ≤ daysBeforeYear (k + 1) := by rw [daysBeforeYear_succ k hk]; omega
    · rw [daysBeforeYear_succ y1 h1]

/-- For real (constructible) dates, the lexicographic date order agrees with
the Gregorian ordinal: `toOrdinal` is monotone. -/
theorem Date.toOrdinal_mono {a b : Date} (ha : a.Valid) (hb : b.Valid)
    (hab : a ≤ b) : a.toOrdinal ≤ b.toOrdinal := by
  obtain ⟨y1, m1, d1⟩ := a
  obtain ⟨y2, m2, d2⟩ := b
  simp only [Date.Valid] at ha hb
  obtain ⟨hay, ham1, ham2, had1, had2⟩ := ha
  obtain ⟨hby, hbm1, hbm2, hbd1, hbd2⟩ := hb
  rw [Date.le_def, Date.lexKey, Date.lexKey, Prod.Lex.le_iff] at hab
  unfold Date.toOrdinal
  simp only at hab had2 hbd2 ⊢
  rcases hab with hylt | ⟨hyeq, hrest⟩
  · -- strictly earlier year
    have hbound : daysBeforeMonth y1 m1 + d1 ≤ daysInYear y1 := by
      have := daysBeforeMonth_add_daysInMonth_le y1 m1 ham1 ham2
      omega
    have := daysBeforeYear_add_daysInYear_le y1 y2 hay hylt
    omega
  · subst hyeq
    rw [Prod.Lex.le_iff] at hrest
    simp only at hrest
    rcases hrest with hmlt | ⟨hmeq, hdle⟩
    · -- same year, strictly earlier month
      have hstep : daysBeforeMonth y1 m1 + daysInMonth y1 m1
          = daysBeforeMonthB (isLeap y1) (m1 + 1) := rfl
      have hmono := daysBeforeMonthB_mono (isLeap y1)
        (show m1 + 1 ≤ m2 by omega)
      unfold daysBeforeMonth at *
      omega
    · subst hmeq
      omega

/-! ### Concrete events used as witnesses and counterexamples -/

/-- An event whose `end_date` lies strictly before its `start_date`
(an input `Event.clean` would reject, but `Event.days` accepts). -/
def evDaysNeg : Event :=
  { pk := 1, start_date := ⟨2024, 3, 10⟩, start_time := none,
    end_date := some ⟨2024, 3, 9⟩, end_time := none,
    is_published := true, publish_at := 0, register_link := "",
    enable_registration := false, registration_deadline_at := none }

/-- Scenario B of the spec: 2024-03-10 .. 2024-03-12, no times. -/
def evSpan : Event :=
  { pk := 2, start_date := ⟨2024, 3, 10⟩, start_time := none,
    end_date := some ⟨2024, 3, 12⟩, end_time := none,
    is_published := true, publish_at := 0, register_link := "",
    enable_registration := false, registration_deadline_at := none }

/-- A same-day event starting at midnight. -/
def evMidnight : Event :=
  { pk := 3, start_date := ⟨2024, 3, 10⟩, start_time := some ⟨0, 0, 0, 0⟩,
    end_date := some ⟨2024, 3, 10⟩, end_time := some ⟨13, 0, 0, 0⟩,
    is_published := true, publish_at := 0, register_link := "",
    enable_registration := false, registration_deadline_at := none }

/-- An event violating the date ordering AND both registration invariants. -/
def evAllBad : Event :=
  { pk := 4, start_date := ⟨2024, 3, 10⟩, start_time := none,
    end_date := some ⟨2024, 3, 9⟩, end_time := none,
    is_published := true, publish_at := 0, register_link := "http://x",
    enable_registration := true, registration_deadline_at := none }

/-- Scenario A of the spec: same day, start 14:00, end 13:00. -/
def evScenarioA : Event :=
  { pk := 5, start_date := ⟨2024, 3, 10⟩, start_time := some ⟨14, 0, 0, 0⟩,
    end_date := some ⟨2024, 3, 10⟩, end_time := some ⟨13, 0, 0, 0⟩,
    is_published := true, publish_at := 0, register_link := "",
    enable_registration := false, registration_deadline_at := none }

/-- Scenario C of the spec: registration enabled together with an external
registration link. -/
def evScenarioC : Event :=
  { pk := 6, start_date := ⟨2024, 3, 10⟩, start_time := none,
    end_date := none, end_time := none,
    is_published := true, publish_at := 0, register_link := "http://x",
    enable_registration := true, registration_deadline_at := some 100 }

/-- An event with a registration deadline at instant 3. -/
def evDeadline : Event :=
  { pk := 7, start_date := ⟨2024, 3, 10⟩, start_time := none,
    end_date := none, end_time := none,
    is_published := true, publish_at := 0, register_link := "",
    enable_registration := true, registration_deadline_at := some 3 }

/-! ### C1 -/

/-- C1, counterexample: the claim asserts `days >= 1` for every event with no
precondition relating the two dates, but for `end_date` one day before
`start_date` the code returns `(end - start).days + 1 = 0`. -/
theorem C1_counterexample :
    Event.days evDaysNeg = 0 ∧ ¬(1 ≤ Event.days evDaysNeg) := by decide

/-- C1 (amended): `days` always equals `(effective_end_date - start_date)` in
whole calendar days plus 1; the value is at least 1 whenever
`start_date <= effective_end_date` (the invariant `validate` establishes),
for constructible dates. -/
theorem C1_days_formula (e : Event)
    (hs : e.start_date.Valid) (he : (e.end_date.getD e.start_date).Valid)
    (h : e.start_date ≤ e.end_date.getD e.start_date) :
    e.days = ((e.end_date.getD e.start_date).toOrdinal : Int)
      - (e.start_date.toOrdinal : Int) + 1 ∧ 1 ≤ e.days := by
  refine ⟨rfl, ?_⟩
  have := Date.toOrdinal_mono hs he h
  unfold Event.days
  omega

/-- C1 witness: scenario B's event has `days = 3 >= 1`. -/
theorem C1_witness : 1 ≤ Event.days evSpan ∧ Event.days evSpan = 3 :=
  ⟨(C1_days_formula evSpan (by decide) (by decide) (by decide)).2, by decide⟩

/-! ### C2 -/

/-- C2: an event satisfying all four invariants of the data model passes
`Event.clean` without error (in particular, same-day events with a midnight
`start_time` validate, since Python 3 `time` values are always truthy). -/
theorem C2_clean_accepts_valid (e : Event)
    (h1 : ∀ ed, e.end_date = some ed → e.start_date ≤ ed)
    (h2 : e.end_date = some e.start_date →
      ∃ st et, e.start_time = some st ∧ e.end_time = some et ∧ st < et)
    (h3 : ¬(e.enable_registration = true ∧ e.register_link ≠ ""))
    (h4 : e.enable_registration = true → e.registration_deadline_at.isSome) :
    e.clean = none := by
  have hreg : e.registrationClean = none := by
    unfold Event.registrationClean
    by_cases hen : e.enable_registration = true
    · have hlink : e.register_link = "" := by
        by_contra hne; exact h3 ⟨hen, hne⟩
      obtain ⟨d, hd⟩ := Option.isSome_iff_exists.mp (h4 hen)
      simp [hen, hlink, hd]
    · simp [hen]
  have hdate : e.dateClean = none := by
    cases hend : e.end_date with
    | none => simp [Event.dateClean, hend]
    | some ed =>
      have hle := h1 ed hend
      have hnlt : ¬(ed < e.start_date) := not_lt.mpr hle
      by_cases heq : e.start_date = ed
      · obtain ⟨st, et, hst, het, hlt⟩ := h2 (by rw [hend, heq])
        have hno : ¬(et < st ∨ st = et) := by
          push_neg
          exact ⟨le_of_lt hlt, ne_of_lt hlt⟩
        simp [Event.dateClean, hend, hnlt, heq, hst, het, hno]
      · simp [Event.dateClean, hend, hnlt, heq]
  simp [Event.clean, hdate, hreg]

/-- C2 witness: the midnight same-day event validates. -/
theorem C2_witness : Event.clean evMidnight = none :=
  C2_clean_accepts_valid evMidnight
    (by intro ed h; injection h with h; subst h; exact le_refl _)
    (fun _ => ⟨⟨0, 0, 0, 0⟩, ⟨13, 0, 0, 0⟩, rfl, rfl, by decide⟩)
    (by decide)
    (by intro h; exact absurd h (by decide))

/-! ### C3 -/

/-- C3: `is_registration_deadline_passed` is true exactly when the deadline
is unset or is `<= now`, and false exactly when the deadline is set and
strictly after `now`. -/
theorem C3_deadline_passed_iff (e : Event) (now : Int) :
    (e.is_registration_deadline_passed now = true ↔
      e.registration_deadline_at = none ∨
        ∃ d, e.registration_deadline_at = some d ∧ d ≤ now) ∧
    (e.is_registration_deadline_passed now = false ↔
      ∃ d, e.registration_deadline_at = some d ∧ now < d) := by
  unfold Event.is_registration_deadline_passed
  cases h : e.registration_deadline_at with
  | none => simp
  | some d =>
    by_cases hlt : now < d
    · refine ⟨?_, ?_⟩ <;> simp [hlt, le_of_lt hlt, not_le.mpr hlt]
    · refine ⟨?_, ?_⟩ <;> simp [hlt, not_lt.mp hlt]

/-- C3 witness: a deadline at instant 3 has passed at instant 5. -/
theorem C3_witness :
    Event.is_registration_deadline_passed evDeadline 5 = true :=
  ((C3_deadline_passed_iff evDeadline 5).1).mpr (Or.inr ⟨3, rfl, by decide⟩)

/-! ### C5 -/

/-- C5: when both dates are set and `start_date > end_date`, `clean` raises
the date-ordering error exactly, regardless of every other field
(short-circuit: no later check is evaluated). -/
theorem C5_date_order_short_circuit (e : Event) (ed : Date)
    (h : e.end_date = some ed) (hlt : ed < e.start_date) :
    e.clean = some ValidationError.startEndOrder := by
  have hd : e.dateClean = some .startEndOrder := by
    simp [Event.dateClean, h, hlt]
  simp [Event.clean, hd]

/-- C5 witness: an event that also violates both registration invariants
still reports only the date-ordering error. -/
theorem C5_witness : Event.clean evAllBad = some ValidationError.startEndOrder :=
  C5_date_order_short_circuit evAllBad ⟨2024, 3, 9⟩ rfl (by decide)

/-! ### C6 -/

/-- C6: for a same-day event, a missing start or end time yields the
times-required error, and `end_time <= start_time` (equality included)
yields the time-ordering error. -/
theorem C6_same_day_time_errors (e : Event)
    (h : e.end_date = some e.start_date) :
    ((e.start_time = none ∨ e.end_time = none) →
        e.clean = some ValidationError.sameDayTimesRequired) ∧
    (∀ st et, e.start_time = some st → e.end_time = some et → et ≤ st →
        e.clean = some ValidationError.sameDayTimeOrder) := by
  constructor
  · intro hmiss
    have hd : e.dateClean = some .sameDayTimesRequired := by
      rcases hmiss with hs | he2
      · cases hE : e.end_time with
        | none => simp [Event.dateClean, h, hs, hE]
        | some et => simp [Event.dateClean, h, hs, hE]
      · simp [Event.dateClean, h, he2]
    simp [Event.clean, hd]
  · intro st et hst het hle
    have hd : e.dateClean = some .sameDayTimeOrder := by
      have hor : et < st ∨ st = et := by
        rcases lt_or_eq_of_le hle with h' | h'
        · exact Or.inl h'
        · exact Or.inr h'.symm
      simp [Event.dateClean, h, hst, het, hor]
    simp [Event.clean, hd]

/-- C6 witness: scenario A (same day, 14:00 to 13:00) reports the
time-ordering error. -/
theorem C6_witness :
    Event.clean evScenarioA = some ValidationError.sameDayTimeOrder :=
  (C6_same_day_time_errors evScenarioA rfl).2
    ⟨14, 0, 0, 0⟩ ⟨13, 0, 0, 0⟩ rfl rfl (by decide)

/-! ### C7 -/

/-- C7: once the date/time checks pass, `clean` fails iff registration is
enabled with a non-empty external link or a missing deadline; the
mutual-exclusivity error takes precedence, otherwise the deadline error is
reported. -/
theorem C7_registration_errors (e : Event) (h : e.dateClean = none) :
    (e.clean ≠ none ↔ e.enable_registration = true ∧
      (e.register_link ≠ "" ∨ e.registration_deadline_at = none)) ∧
    (e.enable_registration = true → e.register_link ≠ "" →
      e.clean = some ValidationError.registrationMutex) ∧
    (e.enable_registration = true → e.register_link = "" →
      e.registration_deadline_at = none →
      e.clean = some ValidationError.deadlineRequired) := by
  have hc : e.clean = e.registrationClean := by simp [Event.clean, h]
  rw [hc]
  unfold Event.registrationClean
  refine ⟨?_, ?_, ?_⟩
  · by_cases hen : e.enable_registration = true <;>
      by_cases hlink : e.register_link = "" <;>
      cases hdl : e.registration_deadline_at <;>
      simp [hen, hlink, hdl]
  · intro hen hlink
    simp [hen, hlink]
  · intro hen hlink hdl
    simp [hen, hlink, hdl]

/-- C7 witness: scenario C (registration enabled plus external link) reports
the mutual-exclusivity error even though a deadline is set. -/
theorem C7_witness :
    Event.clean evScenarioC = some ValidationError.registrationMutex :=
  (C7_registration_errors evScenarioC rfl).2.1 rfl (by decide)

/-! ### C4: canonical ordering -/

/-- An absent time-of-day or date sorts as the minimum value for its slot. -/
def optBot {α : Type} (o : Option α) : WithBot α :=
  match o with
  | none => ⊥
  | some a => (a : WithBot α)

theorem optBot_injective {α : Type} : Function.Injective (optBot (α := α)) := by
  intro a b h
  cases a <;> cases b <;> simp_all [optBot]

/-- The sort key of `Event.Meta.ordering`: the tuple
`(start_date, start_time, end_date, end_time)` compared lexicographically
ascending, with absent values minimal, and the database identity `pk` as the
final deterministic tiebreak. -/
def Event.sortKey (e : Event) :
    Lex (Date × Lex (WithBot Time × Lex (WithBot Date × Lex (WithBot Time × Nat)))) :=
  toLex (e.start_date, toLex (optBot e.start_time,
    toLex (optBot e.end_date, toLex (optBot e.end_time, e.pk))))

/-- The canonical order as a Boolean comparator. -/
def eventLe (a b : Event) : Bool := decide (a.sortKey ≤ b.sortKey)

/-- Sorting a sequence of events into canonical order (a stable sort, as
the record store's ordered query is). -/
def sortEvents (l : List Event) : List Event := l.mergeSort eventLe

theorem eventLe_trans (a b c : Event) (h1 : eventLe a b = true)
    (h2 : eventLe b c = true) : eventLe a c = true := by
  simp only [eventLe, decide_eq_true_eq] at *
  exact le_trans h1 h2

theorem eventLe_total (a b : Event) : eventLe a b || eventLe b a := by
  simp only [eventLe, Bool.or_eq_true, decide_eq_true_eq]
  exact le_total _ _

/-- C4: the canonical event ordering is a stable total order: it is total,
transitive, antisymmetric up to the (dates, times, identity) key; sorting
always yields a canonically sorted permutation, sorting is idempotent, and
reversing the sorted sequence twice restores it. -/
theorem C4_canonical_order :
    (∀ a b : Event, eventLe a b || eventLe b a) ∧
    (∀ a b c : Event, eventLe a b = true → eventLe b c = true →
      eventLe a c = true) ∧
    (∀ a b : Event, eventLe a b = true → eventLe b a = true →
      a.sortKey = b.sortKey) ∧
    (∀ l : List Event,
      (sortEvents l).Pairwise (fun a b => eventLe a b = true)) ∧
    (∀ l : List Event, sortEvents (sortEvents l) = sortEvents l) ∧
    (∀ l : List Event, (sortEvents l).reverse.reverse = sortEvents l) ∧
    (∀ l : List Event, (sortEvents l).Perm l) := by
  refine ⟨eventLe_total, eventLe_trans, ?_, ?_, ?_, ?_, ?_⟩
  · intro a b h1 h2
    simp only [eventLe, decide_eq_true_eq] at h1 h2
    exact le_antisymm h1 h2
  · intro l
    exact List.sorted_mergeSort eventLe_trans
      (fun a b => eventLe_total a b) l
  · intro l
    exact List.mergeSort_of_sorted
      (List.sorted_mergeSort eventLe_trans (fun a b => eventLe_total a b) l)
  · intro l
    exact List.reverse_reverse _
  · intro l
    exact List.mergeSort_perm l eventLe

/-- Three events in canonical order: a date-only event precedes a timed
event on the same day (absent time sorts minimal), which precedes a later
start date. -/
def evOrd1 : Event :=
  { pk := 10, start_date := ⟨2024, 1, 1⟩, start_time := none,
    end_date := none, end_time := none,
    is_published := true, publish_at := 0, register_link := "",
    enable_registration := false, registration_deadline_at := none }

def evOrd2 : Event :=
  { pk := 11, start_date := ⟨2024, 1, 1⟩, start_time := some ⟨9, 0, 0, 0⟩,
    end_date := none, end_time := none,
    is_published := true, publish_at := 0, register_link := "",
    enable_registration := false, registration_deadline_at := none }

def evOrd3 : Event :=
  { pk := 12, start_date := ⟨2024, 2, 1⟩, start_time := none,
    end_date := none, end_time := none,
    is_published := true, publish_at := 0, register_link := "",
    enable_registration := false, registration_deadline_at := none }

/-- C4 witness: transitivity of the canonical order at concrete events. -/
theorem C4_witness : eventLe evOrd1 evOrd3 = true :=
  C4_canonical_order.2.1 evOrd1 evOrd2 evOrd3 (by decide) (by decide)

/-! ### C10: EventCoordinator -/

/-- The linked user account (`AUTH_USER_MODEL`); only its email is read by
the coordinator logic. -/
structure AuthUser where
  email : String
deriving DecidableEq

/-- `EventCoordinator` (models.py lines 231-269): optional display name,
optional explicit email, optional linked user (`user_id` is truthy exactly
when a user is linked). -/
structure EventCoordinator where
  name : String
  email : String
  user : Option AuthUser
deriving DecidableEq

/-- `EventCoordinator.clean` (models.py lines 246-251): raises when the
explicit email is empty and there is no linked user with a non-empty
email. -/
def EventCoordinator.clean (c : EventCoordinator) : Option ValidationError :=
  if c.email == "" then
    match c.user with
    | none => some .coordinatorEmailMissing
    | some u => if u.email == "" then some .coordinatorEmailMissing else none
  else none

/-- `EventCoordinator.get_email_address` (models.py lines 253-258): the
explicit email; when that is empty and a user is linked, the user's
email. -/
def EventCoordinator.get_email_address (c : EventCoordinator) : String :=
  match c.user with
  | some u => if c.email == "" then u.email else c.email
  | none => c.email

/-- C10: `EventCoordinator.clean` succeeds exactly when the derived
`email_address` is non-empty; `email_address` is the explicit email when
non-empty, otherwise the linked user's email (empty when no user is
linked); and `clean` reports the missing-email error exactly when the
explicit email is empty and no linked user has a non-empty email. -/
theorem C10_coordinator_email (c : EventCoordinator) :
    (c.clean = none ↔ c.get_email_address ≠ "") ∧
    (c.get_email_address =
      if c.email = "" then
        (match c.user with
         | some u => u.email
         | none => "")
      else c.email) ∧
    (c.clean = some ValidationError.coordinatorEmailMissing ↔
      c.email = "" ∧ ¬∃ u, c.user = some u ∧ u.email ≠ "") := by
  cases hu : c.user with
  | none =>
    by_cases he : c.email = "" <;>
      simp [EventCoordinator.clean, EventCoordinator.get_email_address, hu, he]
  | some u =>
    by_cases he : c.email = "" <;> by_cases hue : u.email = "" <;>
      simp [EventCoordinator.clean, EventCoordinator.get_email_address,
        hu, he, hue]

/-- A coordinator with an empty explicit email and a linked user. -/
def coordLinked : EventCoordinator :=
  { name := "", email := "", user := some ⟨"a@b.c"⟩ }

/-- C10 witness: a coordinator whose only email comes from the linked user
validates, and its derived address is the user's email. -/
theorem C10_witness :
    EventCoordinator.clean coordLinked = none ∧
    EventCoordinator.get_email_address coordLinked = "a@b.c" :=
  ⟨((C10_coordinator_email coordLinked).1).mpr (by decide),
   by decide⟩

/-! ### C9: `days` normalizes its date fields in place -/

def isDigitC (c : Char) : Bool := c.isDigit

/-- Split a character list at the first character failing `p`. -/
def spanP (p : Char → Bool) : List Char → List Char × List Char
  | [] => ([], [])
  | c :: cs =>
    if p c then
      let r := spanP p cs
      (c :: r.1, r.2)
    else ([], c :: cs)

/-- Numeric value of a digit string. -/
def digitsVal (l : List Char) : Nat :=
  l.foldl (fun n c => 10 * n + (c.toNat - '0'.toNat)) 0

def mkValidDate (y m d : Nat) : Option Date :=
  if (Date.mk y m d).Valid then some ⟨y, m, d⟩ else none

/-- Modelled from the spec: the record store "does not normalize in some
situations", so a date field can hold a string; the store's field
normalization (`DateField.to_python`, an external collaborator) parses
`YYYY-MM-DD` into a real calendar date and rejects anything else. -/
def parseDateChars (l : List Char) : Option Date :=
  match spanP isDigitC l with
  | (y, '-' :: r1) =>
    match spanP isDigitC r1 with
    | (m, '-' :: r2) =>
      match spanP isDigitC r2 with
      | (d, []) =>
        if y.length = 4 ∧ 1 ≤ m.length ∧ m.length ≤ 2
            ∧ 1 ≤ d.length ∧ d.length ≤ 2 then
          mkValidDate (digitsVal y) (digitsVal m) (digitsVal d)
        else none
      | _ => none
    | _ => none
  | _ => none

/-- A value stored in a date field: either a normalized date object or a
raw string. -/
inductive DateInput where
  | date (d : Date)
  | str (s : List Char)
deriving DecidableEq

/-- Python truthiness of a stored date field value: date objects are always
truthy, strings are truthy when non-empty. -/
def DateInput.truthy : DateInput → Bool
  | .date _ => true
  | .str s => !s.isEmpty

/-- `to_python` of a date field: dates pass through, strings are parsed
(`none` models the raised validation error). -/
def to_python : DateInput → Option Date
  | .date d => some d
  | .str s => parseDateChars s

/-- An event instance as the `days` property actually sees it: the date
fields may be unnormalized. -/
structure EventRaw where
  start_date : DateInput
  end_date : Option DateInput
  start_time : Option Time
  end_time : Option Time
  pk : Nat
deriving DecidableEq

/-- `Event.days` exactly as written (models.py lines 177-187) on a possibly
unnormalized instance: it ASSIGNS `self.start_date =
start_date_field.to_python(self.start_date)`, assigns `self.end_date`
likewise when truthy, and only then computes
`(end_date or start_date) - start_date + 1`. The result pairs the returned
value with the post-read instance; `none` models a raised parse error. -/
def EventRaw.days (e : EventRaw) : Option (Int × EventRaw) :=
  match to_python e.start_date with
  | none => none
  | some sd =>
    let e1 : EventRaw := { e with start_date := .date sd }
    match e1.end_date with
    | some ed0 =>
      if ed0.truthy then
        match to_python ed0 with
        | none => none
        | some edd =>
          let e2 : EventRaw := { e1 with end_date := some (.date edd) }
          some (((edd.toOrdinal : Int) - (sd.toOrdinal : Int)) + 1, e2)
      else
        some (((sd.toOrdinal : Int) - (sd.toOrdinal : Int)) + 1, e1)
    | none => some (((sd.toOrdinal : Int) - (sd.toOrdinal : Int)) + 1, e1)

/-- An instance whose `start_date` holds the string "2024-03-10". -/
def evRawStr : EventRaw :=
  { start_date := .str ['2', '0', '2', '4', '-', '0', '3', '-', '1', '0'],
    end_date := none, start_time := none, end_time := none, pk := 20 }

/-- The same instance after the parsed date has been written back. -/
def evRawStrNorm : EventRaw :=
  { start_date := .date ⟨2024, 3, 10⟩,
    end_date := none, start_time := none, end_time := none, pk := 20 }

/-- An instance whose date fields already hold date objects. -/
def evRawDates : EventRaw :=
  { start_date := .date ⟨2024, 3, 10⟩, end_date := some (.date ⟨2024, 3, 12⟩),
    start_time := none, end_time := none, pk := 21 }

/-- C9, counterexample: reading `days` on an instance whose `start_date`
holds a string succeeds but CHANGES the stored `start_date` (the parsed
date is assigned back), so the read is not side-effect-free. -/
theorem C9_counterexample :
    EventRaw.days evRawStr = some (1, evRawStrNorm) ∧
    evRawStrNorm ≠ evRawStr ∧
    evRawStrNorm.start_date ≠ evRawStr.start_date := by decide

/-- C9 (amended): on an instance whose date fields already hold normalized
date objects, reading `days` is pure: it returns a value and leaves every
stored field unchanged. (With a string-valued date field the read instead
normalizes the field in place.) -/
theorem C9_days_frame (e : EventRaw) (sd : Date)
    (hs : e.start_date = DateInput.date sd)
    (he : e.end_date = none ∨ ∃ ed, e.end_date = some (DateInput.date ed)) :
    ∃ v, e.days = some (v, e) := by
  obtain ⟨s0, ed0, st0, et0, pk0⟩ := e
  simp only at hs
  subst hs
  rcases he with hn | ⟨ed, hed⟩
  · simp only at hn
    subst hn
    exact ⟨_, rfl⟩
  · simp only at hed
    subst hed
    exact ⟨_, rfl⟩

/-- C9 witness: a fully normalized instance is left unchanged by `days`. -/
theorem C9_witness : ∃ v, EventRaw.days evRawDates = some (v, evRawDates) :=
  C9_days_frame evRawDates ⟨2024, 3, 10⟩ rfl (Or.inr ⟨⟨2024, 3, 12⟩, rfl⟩)

/-! ### C8: URL route resolution (`urls.py`) -/

/-- `\w` of the slug character class (ASCII reading). -/
def isWordC (c : Char) : Bool := c.isAlphanum || c == '_'

/-- The slug character class `[\w_-]`. -/
def isSlugC (c : Char) : Bool := isWordC c || c == '-'

def gdChars : List Char := ['g', 'e', 't', '-', 'd', 'a', 't', 'e', 's', '/']

def archChars : List Char := ['a', 'r', 'c', 'h', 'i', 'v', 'e', '/']

def resetChars : List Char := ['/', 'r', 'e', 's', 'e', 't', '/']

/-- Consume a literal prefix of the path. -/
def dropPre (pre s : List Char) : Option (List Char) :=
  match pre, s with
  | [], r => some r
  | _ :: _, [] => none
  | p :: ps, c :: cs => if c == p then dropPre ps cs else none

/-- Consume a run of digits whose length satisfies `ok`, followed by a
literal `/` (the exact behavior of the anchored regexes `([0-9]+)/`,
`(\d{4})/` and `(\d{1,2})/`: digit runs cannot backtrack past a
non-digit). -/
def digitsSlashSeg (ok : Nat → Bool) (s : List Char) : Option (List Char) :=
  let p := spanP isDigitC s
  match p.2 with
  | c :: r => if ok p.1.length && (c == '/') then some r else none
  | [] => none

def seg4 : List Char → Option (List Char) := digitsSlashSeg (fun n => n == 4)

def seg12 : List Char → Option (List Char) :=
  digitsSlashSeg (fun n => n == 1 || n == 2)

def segPlus : List Char → Option (List Char) := digitsSlashSeg (fun n => n != 0)

/-- `^get-dates/$` -/
def matchGetDates (s : List Char) : Bool := s == gdChars

/-- `^get-dates/([0-9]+)/([0-9]+)/$` -/
def matchGetDatesYM (s : List Char) : Bool :=
  match dropPre gdChars s with
  | none => false
  | some r1 =>
    match segPlus r1 with
    | none => false
    | some r2 =>
      match segPlus r2 with
      | none => false
      | some r3 => r3.isEmpty

/-- `^(\d{4})/$` -/
def matchYear (s : List Char) : Bool :=
  match seg4 s with
  | none => false
  | some r => r.isEmpty

/-- `^(\d{4})/(\d{1,2})/$` -/
def matchYearMonth (s : List Char) : Bool :=
  match seg4 s with
  | none => false
  | some r1 =>
    match seg12 r1 with
    | none => false
    | some r2 => r2.isEmpty

/-- `^(\d{4})/(\d{1,2})/(\d{1,2})/$` -/
def matchYearMonthDay (s : List Char) : Bool :=
  match seg4 s with
  | none => false
  | some r1 =>
    match seg12 r1 with
    | none => false
    | some r2 =>
      match seg12 r2 with
      | none => false
      | some r3 => r3.isEmpty

/-- `^archive/$` -/
def matchArchive (s : List Char) : Bool := s == archChars

/-- `^archive/(\d{4})/$` -/
def matchArchiveYear (s : List Char) : Bool :=
  match dropPre archChars s with
  | none => false
  | some r1 =>
    match seg4 r1 with
    | none => false
    | some r2 => r2.isEmpty

/-- `^archive/(\d{4})/(\d{1,2})/$` -/
def matchArchiveYM (s : List Char) : Bool :=
  match dropPre archChars s with
  | none => false
  | some r1 =>
    match seg4 r1 with
    | none => false
    | some r2 =>
      match seg12 r2 with
      | none => false
      | some r3 => r3.isEmpty

/-- `^(?P<slug>[\w_-]+)/$` -/
def matchSlug (s : List Char) : Bool :=
  let p := spanP isSlugC s
  !p.1.isEmpty && (p.2 == ['/'])

/-- `^(?P<slug>[\w_-]+)/reset/$` -/
def matchSlugReset (s : List Char) : Bool :=
  let p := spanP isSlugC s
  !p.1.isEmpty && (p.2 == resetChars)

/-- One entry of `urlpatterns`, in source order. -/
inductive Route where
  | eventsList
  | getDates
  | getDatesYM
  | listByYear
  | listByMonth
  | listByDay
  | archive
  | archiveByYear
  | archiveByMonth
  | detail
  | registrationReset
deriving DecidableEq

/-- The view functions named in `urls.py`. -/
inductive View where
  | event_list
  | event_dates
  | event_list_archive
  | event_detail
  | reset_event_registration
deriving DecidableEq

/-- The view each route dispatches to (`urls.py` lines 7-17). -/
def Route.view : Route → View
  | .eventsList => .event_list
  | .getDates => .event_dates
  | .getDatesYM => .event_dates
  | .listByYear => .event_list
  | .listByMonth => .event_list
  | .listByDay => .event_list
  | .archive => .event_list_archive
  | .archiveByYear => .event_list_archive
  | .archiveByMonth => .event_list_archive
  | .detail => .event_detail
  | .registrationReset => .reset_event_registration

/-- Django URL resolution over `urlpatterns`: the first pattern (in source
order) whose regex matches the path wins. -/
def resolve (s : List Char) : Option Route :=
  if s.isEmpty then some .eventsList
  else if matchGetDates s then some .getDates
  else if matchGetDatesYM s then some .getDatesYM
  else if matchYear s then some .listByYear
  else if matchYearMonth s then some .listByMonth
  else if matchYearMonthDay s then some .listByDay
  else if matchArchive s then some .archive
  else if matchArchiveYear s then some .archiveByYear
  else if matchArchiveYM s then some .archiveByMonth
  else if matchSlug s then some .detail
  else if matchSlugReset s then some .registrationReset
  else none

/-! ### Structural lemmas about the path matchers -/

theorem spanP_fst_append_snd (p : Char → Bool) (s : List Char) :
    (spanP p s).1 ++ (spanP p s).2 = s := by
  induction s with
  | nil => rfl
  | cons c cs ih =>
    by_cases h : p c <;> simp [spanP, h, ih]

theorem spanP_fst_all (p : Char → Bool) (s : List Char) :
    ∀ c ∈ (spanP p s).1, p c = true := by
  induction s with
  | nil => simp [spanP]
  | cons c cs ih =>
    by_cases h : p c <;> simp [spanP, h]
    exact ih

theorem spanP_exact {p : Char → Bool} {xs : List Char} {y : Char}
    {ys : List Char} (hx : ∀ c ∈ xs, p c = true) (hy : p y = false) :
    spanP p (xs ++ y :: ys) = (xs, y :: ys) := by
  induction xs with
  | nil => simp [spanP, hy]
  | cons a t ih =>
    have ha : p a = true := hx a (by simp)
    have ht : ∀ c ∈ t, p c = true := fun c hc => hx c (by simp [hc])
    simp [spanP, ha, ih ht]

theorem dropPre_append (pre r : List Char) : dropPre pre (pre ++ r) = some r := by
  induction pre with
  | nil => rfl
  | cons p ps ih => simp [dropPre, ih]

theorem dropPre_inv {pre s r : List Char} (h : dropPre pre s = some r) :
    s = pre ++ r := by
  induction pre generalizing s with
  | nil =>
    have h2 : s = r := by simpa [dropPre] using h
    simp [h2]
  | cons p ps ih =>
    cases s with
    | nil => simp [dropPre] at h
    | cons c cs =>
      simp only [dropPre] at h
      by_cases hc : (c == p) = true
      · rw [if_pos hc] at h
        have := ih h
        simp [this, eq_of_beq hc]
      · rw [if_neg hc] at h
        cases h

theorem digitsSlashSeg_append {ok : Nat → Bool} {ds r : List Char}
    (hd : ∀ c ∈ ds, isDigitC c = true) (hok : ok ds.length = true) :
    digitsSlashSeg ok (ds ++ '/' :: r) = some r := by
  simp only [digitsSlashSeg, spanP_exact hd (show isDigitC '/' = false by decide)]
  simp [hok]

theorem digitsSlashSeg_inv {ok : Nat → Bool} {s r : List Char}
    (h : digitsSlashSeg ok s = some r) :
    ∃ ds, s = ds ++ '/' :: r ∧ (∀ c ∈ ds, isDigitC c = true) ∧
      ok ds.length = true := by
  simp only [digitsSlashSeg] at h
  rcases hsp : (spanP isDigitC s).2 with _ | ⟨c, rest⟩
  · simp [hsp] at h
  · simp only [hsp] at h
    by_cases hcond : (ok (spanP isDigitC s).1.length && (c == '/')) = true
    · rw [if_pos hcond] at h
      injection h with h
      subst h
      obtain ⟨hok, hc2⟩ : ok (spanP isDigitC s).1.length = true ∧ c = '/' := by
        simpa using hcond
      subst hc2
      refine ⟨(spanP isDigitC s).1, ?_, spanP_fst_all _ _, hok⟩
      have hap := spanP_fst_append_snd isDigitC s
      rw [hsp] at hap
      exact hap.symm
    · rw [if_neg hcond] at h
      cases h

/-- Number of `/` separators in a path. -/
def slashCount (l : List Char) : Nat := l.countP (fun c => c == '/')

theorem slashCount_append (l1 l2 : List Char) :
    slashCount (l1 ++ l2) = slashCount l1 + slashCount l2 := by
  simp [slashCount, List.countP_append]

theorem slashCount_cons (c : Char) (cs : List Char) :
    slashCount (c :: cs) = slashCount cs + (if c == '/' then 1 else 0) := by
  simp [slashCount, List.countP_cons]

theorem slashCount_zero {p : Char → Bool} (hp : p '/' = false)
    {l : List Char} (h : ∀ c ∈ l, p c = true) : slashCount l = 0 := by
  induction l with
  | nil => rfl
  | cons c cs ih =>
    have hc : p c = true := h c (by simp)
    have hcs := ih (fun x hx => h x (by simp [hx]))
    have hne : (c == '/') = false := by
      by_cases hx : c = '/'
      · subst hx; rw [hp] at hc; exact absurd hc (by simp)
      · simp [hx]
    simp [slashCount_cons, hne, hcs]

theorem digit_isSlug {c : Char} (h : isDigitC c = true) : isSlugC c = true := by
  simp [isSlugC, isWordC, Char.isAlphanum, isDigitC] at *
  simp [h]

/-! ### Matcher inversion (shape) lemmas -/

theorem matchGetDates_shape {s : List Char} (h : matchGetDates s = true) :
    s = gdChars := by
  simpa [matchGetDates] using h

theorem matchArchive_shape {s : List Char} (h : matchArchive s = true) :
    s = archChars := by
  simpa [matchArchive] using h

theorem matchYear_shape {s : List Char} (h : matchYear s = true) :
    ∃ y, s = y ++ ['/'] ∧ (∀ c ∈ y, isDigitC c = true) ∧ y.length = 4 := by
  unfold matchYear at h
  rcases h4 : seg4 s with _ | r
  · simp [h4] at h
  · simp only [h4] at h
    have hr : r = [] := by simpa using h
    subst hr
    obtain ⟨ds, hs, hds, hok⟩ := digitsSlashSeg_inv h4
    exact ⟨ds, hs, hds, by simpa using hok⟩

theorem matchYearMonth_shape {s : List Char} (h : matchYearMonth s = true) :
    ∃ y m, s = y ++ '/' :: (m ++ ['/']) ∧
      (∀ c ∈ y, isDigitC c = true) ∧ y.length = 4 ∧
      (∀ c ∈ m, isDigitC c = true) ∧ (m.length = 1 ∨ m.length = 2) := by
  unfold matchYearMonth at h
  rcases h4 : seg4 s with _ | r1
  · simp [h4] at h
  · simp only [h4] at h
    rcases h12 : seg12 r1 with _ | r2
    · simp [h12] at h
    · simp only [h12] at h
      have hr : r2 = [] := by simpa using h
      subst hr
      obtain ⟨y, hs, hy, hok4⟩ := digitsSlashSeg_inv h4
      obtain ⟨m, hr1, hm, hok12⟩ := digitsSlashSeg_inv h12
      subst hr1
      exact ⟨y, m, hs, hy, by simpa using hok4, hm, by simpa using hok12⟩

theorem matchYearMonthDay_shape {s : List Char} (h : matchYearMonthDay s = true) :
    ∃ y m d, s = y ++ '/' :: (m ++ '/' :: (d ++ ['/'])) ∧
      (∀ c ∈ y, isDigitC c = true) ∧ y.length = 4 ∧
      (∀ c ∈ m, isDigitC c = true) ∧ (m.length = 1 ∨ m.length = 2) ∧
      (∀ c ∈ d, isDigitC c = true) ∧ (d.length = 1 ∨ d.length = 2) := by
  unfold matchYearMonthDay at h
  rcases h4 : seg4 s with _ | r1
  · simp [h4] at h
  · simp only [h4] at h
    rcases h12 : seg12 r1 with _ | r2
    · simp [h12] at h
    · simp only [h12] at h
      rcases h12b : seg12 r2 with _ | r3
      · simp [h12b] at h
      · simp only [h12b] at h
        have hr : r3 = [] := by simpa using h
        subst hr
        obtain ⟨y, hs, hy, hok4⟩ := digitsSlashSeg_inv h4
        obtain ⟨m, hr1, hm, hok12⟩ := digitsSlashSeg_inv h12
        obtain ⟨d, hr2, hd, hok12b⟩ := digitsSlashSeg_inv h12b
        subst hr2; subst hr1
        exact ⟨y, m, d, hs, hy, by simpa using hok4, hm,
          by simpa using hok12, hd, by simpa using hok12b⟩

theorem matchGetDatesYM_shape {s : List Char} (h : matchGetDatesYM s = true) :
    ∃ y m, s = gdChars ++ (y ++ '/' :: (m ++ ['/'])) ∧
      (∀ c ∈ y, isDigitC c = true) ∧ y ≠ [] ∧
      (∀ c ∈ m, isDigitC c = true) ∧ m ≠ [] := by
  unfold matchGetDatesYM at h
  rcases hdp : dropPre gdChars s with _ | r1
  · simp [hdp] at h
  · simp only [hdp] at h
    rcases hp1 : segPlus r1 with _ | r2
    · simp [hp1] at h
    · simp only [hp1] at h
      rcases hp2 : segPlus r2 with _ | r3
      · simp [hp2] at h
      · simp only [hp2] at h
        have hr : r3 = [] := by simpa using h
        subst hr
        have hs := dropPre_inv hdp
        obtain ⟨y, hr1, hy, hoky⟩ := digitsSlashSeg_inv hp1
        obtain ⟨m, hr2, hm, hokm⟩ := digitsSlashSeg_inv hp2
        subst hr2; subst hr1; subst hs
        refine ⟨y, m, rfl, hy, ?_, hm, ?_⟩
        · intro hy0; subst hy0; simp at hoky
        · intro hm0; subst hm0; simp at hokm

theorem matchArchiveYear_shape {s : List Char} (h : matchArchiveYear s = true) :
    ∃ y, s = archChars ++ (y ++ ['/']) ∧
      (∀ c ∈ y, isDigitC c = true) ∧ y.length = 4 := by
  unfold matchArchiveYear at h
  rcases hdp : dropPre archChars s with _ | r1
  · simp [hdp] at h
  · simp only [hdp] at h
    rcases h4 : seg4 r1 with _ | r2
    · simp [h4] at h
    · simp only [h4] at h
      have hr : r2 = [] := by simpa using h
      subst hr
      have hs := dropPre_inv hdp
      obtain ⟨y, hr1, hy, hok⟩ := digitsSlashSeg_inv h4
      subst hr1; subst hs
      exact ⟨y, rfl, hy, by simpa using hok⟩

theorem matchArchiveYM_shape {s : List Char} (h : matchArchiveYM s = true) :
    ∃ y m, s = archChars ++ (y ++ '/' :: (m ++ ['/'])) ∧
      (∀ c ∈ y, isDigitC c = true) ∧ y.length = 4 ∧
      (∀ c ∈ m, isDigitC c = true) ∧ (m.length = 1 ∨ m.length = 2) := by
  unfold matchArchiveYM at h
  rcases hdp : dropPre archChars s with _ | r1
  · simp [hdp] at h
  · simp only [hdp] at h
    rcases h4 : seg4 r1 with _ | r2
    · simp [h4] at h
    · simp only [h4] at h
      rcases h12 : seg12 r2 with _ | r3
      · simp [h12] at h
      · simp only [h12] at h
        have hr : r3 = [] := by simpa using h
        subst hr
        have hs := dropPre_inv hdp
        obtain ⟨y, hr1, hy, hok4⟩ := digitsSlashSeg_inv h4
        obtain ⟨m, hr2, hm, hok12⟩ := digitsSlashSeg_inv h12
        subst hr2; subst hr1; subst hs
        exact ⟨y, m, rfl, hy, by simpa using hok4, hm, by simpa using hok12⟩

theorem matchSlug_shape {s : List Char} (h : matchSlug s = true) :
    ∃ w, s = w ++ ['/'] ∧ (∀ c ∈ w, isSlugC c = true) ∧ w ≠ [] := by
  simp only [matchSlug, Bool.and_eq_true, Bool.not_eq_true'] at h
  obtain ⟨h1, h2⟩ := h
  have h2b : (spanP isSlugC s).2 = ['/'] := by simpa using h2
  refine ⟨(spanP isSlugC s).1, ?_, spanP_fst_all _ _, ?_⟩
  · have hap := spanP_fst_append_snd isSlugC s
    rw [h2b] at hap
    exact hap.symm
  · intro h0
    rw [h0] at h1
    simp at h1

theorem matchSlugReset_shape {s : List Char} (h : matchSlugReset s = true) :
    ∃ w, s = w ++ resetChars ∧ (∀ c ∈ w, isSlugC c = true) ∧ w ≠ [] := by
  simp only [matchSlugReset, Bool.and_eq_true, Bool.not_eq_true'] at h
  obtain ⟨h1, h2⟩ := h
  have h2b : (spanP isSlugC s).2 = resetChars := by simpa using h2
  refine ⟨(spanP isSlugC s).1, ?_, spanP_fst_all _ _, ?_⟩
  · have hap := spanP_fst_append_snd isSlugC s
    rw [h2b] at hap
    exact hap.symm
  · intro h0
    rw [h0] at h1
    simp at h1

/-! ### Slash counts of matched paths -/

theorem slashCount_digits {l : List Char} (h : ∀ c ∈ l, isDigitC c = true) :
    slashCount l = 0 :=
  slashCount_zero (by decide) h

theorem slashCount_slug {l : List Char} (h : ∀ c ∈ l, isSlugC c = true) :
    slashCount l = 0 :=
  slashCount_zero (by decide) h

theorem slashCount_nil : slashCount ([] : List Char) = 0 := rfl

theorem matchGetDatesYM_count {s : List Char} (h : matchGetDatesYM s = true) :
    slashCount s = 3 := by
  obtain ⟨y, m, rfl, hy, -, hm, -⟩ := matchGetDatesYM_shape h
  simp [slashCount_append, slashCount_cons,
    slashCount_digits hy, slashCount_digits hm]
  decide

theorem matchYear_count {s : List Char} (h : matchYear s = true) :
    slashCount s = 1 := by
  obtain ⟨y, rfl, hy, -⟩ := matchYear_shape h
  simp [slashCount_append, slashCount_cons, slashCount_nil, slashCount_digits hy]

theorem matchYearMonth_count {s : List Char} (h : matchYearMonth s = true) :
    slashCount s = 2 := by
  obtain ⟨y, m, rfl, hy, -, hm, -⟩ := matchYearMonth_shape h
  simp [slashCount_append, slashCount_cons, slashCount_nil,
    slashCount_digits hy, slashCount_digits hm]

theorem matchYearMonthDay_count {s : List Char} (h : matchYearMonthDay s = true) :
    slashCount s = 3 := by
  obtain ⟨y, m, d, rfl, hy, -, hm, -, hd, -⟩ := matchYearMonthDay_shape h
  simp [slashCount_append, slashCount_cons, slashCount_nil,
    slashCount_digits hy, slashCount_digits hm, slashCount_digits hd]

theorem matchArchiveYear_count {s : List Char} (h : matchArchiveYear s = true) :
    slashCount s = 2 := by
  obtain ⟨y, rfl, hy, -⟩ := matchArchiveYear_shape h
  simp [slashCount_append, slashCount_cons, slashCount_digits hy]
  decide

theorem matchArchiveYM_count {s : List Char} (h : matchArchiveYM s = true) :
    slashCount s = 3 := by
  obtain ⟨y, m, rfl, hy, -, hm, -⟩ := matchArchiveYM_shape h
  simp [slashCount_append, slashCount_cons,
    slashCount_digits hy, slashCount_digits hm]
  decide

theorem matchGetDates_count {s : List Char} (h : matchGetDates s = true) :
    slashCount s = 1 := by
  rw [matchGetDates_shape h]
  decide

theorem matchArchive_count {s : List Char} (h : matchArchive s = true) :
    slashCount s = 1 := by
  rw [matchArchive_shape h]
  decide

/-! ### Positive matcher lemmas and resolution of each route family -/

theorem isEmpty_count {s : List Char} (h : s.isEmpty = true) :
    slashCount s = 0 := by
  rw [List.isEmpty_iff.mp h]
  rfl

theorem match_false_of_count {f : List Char → Bool} {s : List Char} {k j : Nat}
    (hf : ∀ t, f t = true → slashCount t = k) (hs : slashCount s = j)
    (hne : ¬(j = k)) : f s = false := by
  cases hb : f s with
  | false => rfl
  | true => exact absurd (hs.symm.trans (hf s hb)) hne

theorem matchYear_of {y : List Char} (hy : ∀ c ∈ y, isDigitC c = true)
    (hlen : y.length = 4) : matchYear (y ++ ['/']) = true := by
  have hseg : seg4 (y ++ '/' :: ([] : List Char)) = some [] :=
    digitsSlashSeg_append hy (by simp [hlen])
  simp [matchYear, hseg]

theorem matchYearMonth_of {y m : List Char}
    (hy : ∀ c ∈ y, isDigitC c = true) (hylen : y.length = 4)
    (hm : ∀ c ∈ m, isDigitC c = true) (hmlen : m.length = 1 ∨ m.length = 2) :
    matchYearMonth (y ++ '/' :: (m ++ ['/'])) = true := by
  have h1 : seg4 (y ++ '/' :: (m ++ ['/'])) = some (m ++ ['/']) :=
    digitsSlashSeg_append hy (by simp [hylen])
  have h2 : seg12 (m ++ '/' :: ([] : List Char)) = some [] :=
    digitsSlashSeg_append hm (by rcases hmlen with h | h <;> simp [h])
  simp [matchYearMonth, h1, h2]

theorem matchYearMonthDay_of {y m d : List Char}
    (hy : ∀ c ∈ y, isDigitC c = true) (hylen : y.length = 4)
    (hm : ∀ c ∈ m, isDigitC c = true) (hmlen : m.length = 1 ∨ m.length = 2)
    (hd : ∀ c ∈ d, isDigitC c = true) (hdlen : d.length = 1 ∨ d.length = 2) :
    matchYearMonthDay (y ++ '/' :: (m ++ '/' :: (d ++ ['/']))) = true := by
  have h1 : seg4 (y ++ '/' :: (m ++ '/' :: (d ++ ['/'])))
      = some (m ++ '/' :: (d ++ ['/'])) :=
    digitsSlashSeg_append hy (by simp [hylen])
  have h2 : seg12 (m ++ '/' :: (d ++ ['/'])) = some (d ++ ['/']) :=
    digitsSlashSeg_append hm (by rcases hmlen with h | h <;> simp [h])
  have h3 : seg12 (d ++ '/' :: ([] : List Char)) = some [] :=
    digitsSlashSeg_append hd (by rcases hdlen with h | h <;> simp [h])
  simp [matchYearMonthDay, h1, h2, h3]

theorem matchGetDatesYM_of {y m : List Char}
    (hy : ∀ c ∈ y, isDigitC c = true) (hyne : y ≠ [])
    (hm : ∀ c ∈ m, isDigitC c = true) (hmne : m ≠ []) :
    matchGetDatesYM (gdChars ++ (y ++ '/' :: (m ++ ['/']))) = true := by
  have hdp := dropPre_append gdChars (y ++ '/' :: (m ++ ['/']))
  have hy0 : y.length ≠ 0 := fun h0 => hyne (List.length_eq_zero.mp h0)
  have hm0 : m.length ≠ 0 := fun h0 => hmne (List.length_eq_zero.mp h0)
  have h1 : segPlus (y ++ '/' :: (m ++ ['/'])) = some (m ++ ['/']) :=
    digitsSlashSeg_append hy (by simpa using hy0)
  have h2 : segPlus (m ++ '/' :: ([] : List Char)) = some [] :=
    digitsSlashSeg_append hm (by simpa using hm0)
  simp [matchGetDatesYM, hdp, h1, h2]

theorem matchArchiveYear_of {y : List Char}
    (hy : ∀ c ∈ y, isDigitC c = true) (hlen : y.length = 4) :
    matchArchiveYear (archChars ++ (y ++ ['/'])) = true := by
  have hdp := dropPre_append archChars (y ++ ['/'])
  have h1 : seg4 (y ++ '/' :: ([] : List Char)) = some [] :=
    digitsSlashSeg_append hy (by simp [hlen])
  simp [matchArchiveYear, hdp, h1]

theorem matchArchiveYM_of {y m : List Char}
    (hy : ∀ c ∈ y, isDigitC c = true) (hylen : y.length = 4)
    (hm : ∀ c ∈ m, isDigitC c = true) (hmlen : m.length = 1 ∨ m.length = 2) :
    matchArchiveYM (archChars ++ (y ++ '/' :: (m ++ ['/']))) = true := by
  have hdp := dropPre_append archChars (y ++ '/' :: (m ++ ['/']))
  have h1 : seg4 (y ++ '/' :: (m ++ ['/'])) = some (m ++ ['/']) :=
    digitsSlashSeg_append hy (by simp [hylen])
  have h2 : seg12 (m ++ '/' :: ([] : List Char)) = some [] :=
    digitsSlashSeg_append hm (by rcases hmlen with h | h <;> simp [h])
  simp [matchArchiveYM, hdp, h1, h2]

theorem matchSlug_of {w : List Char} (hw : ∀ c ∈ w, isSlugC c = true)
    (hne : w ≠ []) : matchSlug (w ++ ['/']) = true := by
  have hsp : spanP isSlugC (w ++ '/' :: ([] : List Char)) = (w, ['/']) :=
    spanP_exact hw (by decide)
  simp [matchSlug, hsp, hne]

theorem matchSlugReset_of {w : List Char} (hw : ∀ c ∈ w, isSlugC c = true)
    (hne : w ≠ []) : matchSlugReset (w ++ resetChars) = true := by
  have hsp : spanP isSlugC (w ++ '/' :: ['r', 'e', 's', 'e', 't', '/'])
      = (w, '/' :: ['r', 'e', 's', 'e', 't', '/']) :=
    spanP_exact hw (by decide)
  simp [matchSlugReset, resetChars, hsp, hne]

def gdStem : List Char := ['g', 'e', 't', '-', 'd', 'a', 't', 'e', 's']

def archStem : List Char := ['a', 'r', 'c', 'h', 'i', 'v', 'e']

theorem resolve_getDatesYM (y m : List Char)
    (hy : ∀ c ∈ y, isDigitC c = true) (hyne : y ≠ [])
    (hm : ∀ c ∈ m, isDigitC c = true) (hmne : m ≠ []) :
    resolve (gdChars ++ (y ++ '/' :: (m ++ ['/']))) = some Route.getDatesYM := by
  have hpos := matchGetDatesYM_of hy hyne hm hmne
  have hcount := matchGetDatesYM_count hpos
  have hEmpty := match_false_of_count (fun t ht => isEmpty_count ht) hcount
    (by decide)
  have hgd := match_false_of_count (fun t ht => matchGetDates_count ht) hcount
    (by decide)
  simp [resolve, hEmpty, hgd, hpos]

theorem resolve_year (y : List Char)
    (hy : ∀ c ∈ y, isDigitC c = true) (hlen : y.length = 4) :
    resolve (y ++ ['/']) = some Route.listByYear := by
  have hpos := matchYear_of hy hlen
  have hcount := matchYear_count hpos
  have hEmpty := match_false_of_count (fun t ht => isEmpty_count ht) hcount
    (by decide)
  have hgd : matchGetDates (y ++ ['/']) = false := by
    cases hb : matchGetDates (y ++ ['/']) with
    | false => rfl
    | true =>
      exfalso
      have hshape := matchGetDates_shape hb
      have hlenP : (y ++ ['/']).length = 5 := by simp [hlen]
      rw [hshape] at hlenP
      exact absurd hlenP (by decide)
  have hgdym := match_false_of_count (fun t ht => matchGetDatesYM_count ht)
    hcount (by decide)
  simp [resolve, hEmpty, hgd, hgdym, hpos]

theorem resolve_yearMonth (y m : List Char)
    (hy : ∀ c ∈ y, isDigitC c = true) (hylen : y.length = 4)
    (hm : ∀ c ∈ m, isDigitC c = true) (hmlen : m.length = 1 ∨ m.length = 2) :
    resolve (y ++ '/' :: (m ++ ['/'])) = some Route.listByMonth := by
  have hpos := matchYearMonth_of hy hylen hm hmlen
  have hcount := matchYearMonth_count hpos
  have hEmpty := match_false_of_count (fun t ht => isEmpty_count ht) hcount
    (by decide)
  have hgd := match_false_of_count (fun t ht => matchGetDates_count ht) hcount
    (by decide)
  have hgdym := match_false_of_count (fun t ht => matchGetDatesYM_count ht)
    hcount (by decide)
  have hyr := match_false_of_count (fun t ht => matchYear_count ht) hcount
    (by decide)
  simp [resolve, hEmpty, hgd, hgdym, hyr, hpos]

theorem resolve_yearMonthDay (y m d : List Char)
    (hy : ∀ c ∈ y, isDigitC c = true) (hylen : y.length = 4)
    (hm : ∀ c ∈ m, isDigitC c = true) (hmlen : m.length = 1 ∨ m.length = 2)
    (hd : ∀ c ∈ d, isDigitC c = true) (hdlen : d.length = 1 ∨ d.length = 2) :
    resolve (y ++ '/' :: (m ++ '/' :: (d ++ ['/']))) = some Route.listByDay := by
  have hpos := matchYearMonthDay_of hy hylen hm hmlen hd hdlen
  have hcount := matchYearMonthDay_count hpos
  have hEmpty := match_false_of_count (fun t ht => isEmpty_count ht) hcount
    (by decide)
  have hgd := match_false_of_count (fun t ht => matchGetDates_count ht) hcount
    (by decide)
  have hyr := match_false_of_count (fun t ht => matchYear_count ht) hcount
    (by decide)
  have hym := match_false_of_count (fun t ht => matchYearMonth_count ht) hcount
    (by decide)
  have hgdym : matchGetDatesYM (y ++ '/' :: (m ++ '/' :: (d ++ ['/']))) = false := by
    cases hb : matchGetDatesYM (y ++ '/' :: (m ++ '/' :: (d ++ ['/']))) with
    | false => rfl
    | true =>
      exfalso
      obtain ⟨y2, m2, hEq, -, -, -, -⟩ := matchGetDatesYM_shape hb
      obtain ⟨a, t, rfl⟩ : ∃ a t, y = a :: t := by
        rcases List.exists_cons_of_ne_nil
          (show y ≠ [] from fun h0 => by rw [h0] at hylen; simp at hylen)
          with ⟨a, t, h⟩
        exact ⟨a, t, h⟩
      have ha : isDigitC a = true := hy a (by simp)
      simp only [gdChars, List.cons_append, List.append_assoc,
        List.cons.injEq] at hEq
      rw [hEq.1] at ha
      exact absurd ha (by decide)
  simp [resolve, hEmpty, hgd, hgdym, hyr, hym, hpos]

theorem resolve_archiveYear (y : List Char)
    (hy : ∀ c ∈ y, isDigitC c = true) (hlen : y.length = 4) :
    resolve (archChars ++ (y ++ ['/'])) = some Route.archiveByYear := by
  have hpos := matchArchiveYear_of hy hlen
  have hcount := matchArchiveYear_count hpos
  have hEmpty := match_false_of_count (fun t ht => isEmpty_count ht) hcount
    (by decide)
  have hgd := match_false_of_count (fun t ht => matchGetDates_count ht) hcount
    (by decide)
  have hgdym := match_false_of_count (fun t ht => matchGetDatesYM_count ht)
    hcount (by decide)
  have hyr := match_false_of_count (fun t ht => matchYear_count ht) hcount
    (by decide)
  have hymd := match_false_of_count (fun t ht => matchYearMonthDay_count ht)
    hcount (by decide)
  have harch := match_false_of_count (fun t ht => matchArchive_count ht) hcount
    (by decide)
  have hym : matchYearMonth (archChars ++ (y ++ ['/'])) = false := by
    cases hb : matchYearMonth (archChars ++ (y ++ ['/'])) with
    | false => rfl
    | true =>
      exfalso
      obtain ⟨y2, m2, hEq, hy2, hy2len, -, -⟩ := matchYearMonth_shape hb
      obtain ⟨a, t, rfl⟩ : ∃ a t, y2 = a :: t := by
        rcases List.exists_cons_of_ne_nil
          (show y2 ≠ [] from fun h0 => by rw [h0] at hy2len; simp at hy2len)
          with ⟨a, t, h⟩
        exact ⟨a, t, h⟩
      have ha : isDigitC a = true := hy2 a (by simp)
      simp only [archChars, List.cons_append, List.append_assoc,
        List.cons.injEq] at hEq
      rw [← hEq.1] at ha
      exact absurd ha (by decide)
  simp [resolve, hEmpty, hgd, hgdym, hyr, hym, hymd, harch, hpos]

theorem resolve_archiveYM (y m : List Char)
    (hy : ∀ c ∈ y, isDigitC c = true) (hylen : y.length = 4)
    (hm : ∀ c ∈ m, isDigitC c = true) (hmlen : m.length = 1 ∨ m.length = 2) :
    resolve (archChars ++ (y ++ '/' :: (m ++ ['/']))) = some Route.archiveByMonth := by
  have hpos := matchArchiveYM_of hy hylen hm hmlen
  have hcount := matchArchiveYM_count hpos
  have hEmpty := match_false_of_count (fun t ht => isEmpty_count ht) hcount
    (by decide)
  have hgd := match_false_of_count (fun t ht => matchGetDates_count ht) hcount
    (by decide)
  have hyr := match_false_of_count (fun t ht => matchYear_count ht) hcount
    (by decide)
  have hym := match_false_of_count (fun t ht => matchYearMonth_count ht) hcount
    (by decide)
  have harch := match_false_of_count (fun t ht => matchArchive_count ht) hcount
    (by decide)
  have harchy := match_false_of_count (fun t ht => matchArchiveYear_count ht)
    hcount (by decide)
  have hgdym : matchGetDatesYM (archChars ++ (y ++ '/' :: (m ++ ['/']))) = false := by
    cases hb : matchGetDatesYM (archChars ++ (y ++ '/' :: (m ++ ['/']))) with
    | false => rfl
    | true =>
      exfalso
      obtain ⟨y2, m2, hEq, -, -, -, -⟩ := matchGetDatesYM_shape hb
      simp [archChars, gdChars] at hEq
  have hymd : matchYearMonthDay (archChars ++ (y ++ '/' :: (m ++ ['/']))) = false := by
    cases hb : matchYearMonthDay (archChars ++ (y ++ '/' :: (m ++ ['/']))) with
    | false => rfl
    | true =>
      exfalso
      obtain ⟨y2, m2, d2, hEq, hy2, hy2len, -, -, -, -⟩ := matchYearMonthDay_shape hb
      obtain ⟨a, t, rfl⟩ : ∃ a t, y2 = a :: t := by
        rcases List.exists_cons_of_ne_nil
          (show y2 ≠ [] from fun h0 => by rw [h0] at hy2len; simp at hy2len)
          with ⟨a, t, h⟩
        exact ⟨a, t, h⟩
      have ha : isDigitC a = true := hy2 a (by simp)
      simp only [archChars, List.cons_append, List.append_assoc,
        List.cons.injEq] at hEq
      rw [← hEq.1] at ha
      exact absurd ha (by decide)
  simp [resolve, hEmpty, hgd, hgdym, hyr, hym, hymd, harch, harchy, hpos]

theorem matchSlug_count {s : List Char} (h : matchSlug s = true) :
    slashCount s = 1 := by
  obtain ⟨v, rfl, hv, -⟩ := matchSlug_shape h
  simp [slashCount_append, slashCount_cons, slashCount_nil, slashCount_slug hv]

theorem resolve_detail (w : List Char) (hw : ∀ c ∈ w, isSlugC c = true)
    (hne : w ≠ []) (hgdne : w ≠ gdStem) (harchne : w ≠ archStem)
    (hnot4 : ¬(w.length = 4 ∧ ∀ c ∈ w, isDigitC c = true)) :
    resolve (w ++ ['/']) = some Route.detail := by
  have hpos := matchSlug_of hw hne
  have hcount : slashCount (w ++ ['/']) = 1 := by
    simp [slashCount_append, slashCount_cons, slashCount_nil,
      slashCount_slug hw]
  have hEmpty := match_false_of_count (fun t ht => isEmpty_count ht) hcount
    (by decide)
  have hgdym := match_false_of_count (fun t ht => matchGetDatesYM_count ht)
    hcount (by decide)
  have hym := match_false_of_count (fun t ht => matchYearMonth_count ht) hcount
    (by decide)
  have hymd := match_false_of_count (fun t ht => matchYearMonthDay_count ht)
    hcount (by decide)
  have harchy := match_false_of_count (fun t ht => matchArchiveYear_count ht)
    hcount (by decide)
  have harchym := match_false_of_count (fun t ht => matchArchiveYM_count ht)
    hcount (by decide)
  have hgd : matchGetDates (w ++ ['/']) = false := by
    cases hb : matchGetDates (w ++ ['/']) with
    | false => rfl
    | true =>
      exfalso
      have hshape := matchGetDates_shape hb
      have hgdsplit : gdChars = gdStem ++ ['/'] := by decide
      rw [hgdsplit] at hshape
      exact hgdne (List.append_cancel_right hshape)
  have harch : matchArchive (w ++ ['/']) = false := by
    cases hb : matchArchive (w ++ ['/']) with
    | false => rfl
    | true =>
      exfalso
      have hshape := matchArchive_shape hb
      have harchsplit : archChars = archStem ++ ['/'] := by decide
      rw [harchsplit] at hshape
      exact harchne (List.append_cancel_right hshape)
  have hyr : matchYear (w ++ ['/']) = false := by
    cases hb : matchYear (w ++ ['/']) with
    | false => rfl
    | true =>
      exfalso
      obtain ⟨y, hEq, hy, hylen⟩ := matchYear_shape hb
      have hwy : w = y := List.append_cancel_right hEq
      subst hwy
      exact hnot4 ⟨hylen, hy⟩
  simp [resolve, hEmpty, hgd, hgdym, hyr, hym, hymd, harch, harchy, harchym,
    hpos]

theorem resolve_reset (w : List Char) (hw : ∀ c ∈ w, isSlugC c = true)
    (hne : w ≠ []) :
    resolve (w ++ resetChars) = some Route.registrationReset := by
  have hpos := matchSlugReset_of hw hne
  have hcount : slashCount (w ++ resetChars) = 2 := by
    simp [slashCount_append, slashCount_slug hw]
    decide
  have hsp1 : spanP isSlugC (w ++ '/' :: ['r', 'e', 's', 'e', 't', '/'])
      = (w, '/' :: ['r', 'e', 's', 'e', 't', '/']) :=
    spanP_exact hw (by decide)
  have hEmpty := match_false_of_count (fun t ht => isEmpty_count ht) hcount
    (by decide)
  have hgd := match_false_of_count (fun t ht => matchGetDates_count ht) hcount
    (by decide)
  have hgdym := match_false_of_count (fun t ht => matchGetDatesYM_count ht)
    hcount (by decide)
  have hyr := match_false_of_count (fun t ht => matchYear_count ht) hcount
    (by decide)
  have hymd := match_false_of_count (fun t ht => matchYearMonthDay_count ht)
    hcount (by decide)
  have harch := match_false_of_count (fun t ht => matchArchive_count ht) hcount
    (by decide)
  have harchym := match_false_of_count (fun t ht => matchArchiveYM_count ht)
    hcount (by decide)
  have hslug := match_false_of_count (fun t ht => matchSlug_count ht) hcount
    (by decide)
  have hym : matchYearMonth (w ++ resetChars) = false := by
    cases hb : matchYearMonth (w ++ resetChars) with
    | false => rfl
    | true =>
      exfalso
      obtain ⟨y2, m2, hEq, hy2, -, -, hm2len⟩ := matchYearMonth_shape hb
      have hy2slug : ∀ c ∈ y2, isSlugC c = true :=
        fun c hc => digit_isSlug (hy2 c hc)
      have hsp2 : spanP isSlugC (y2 ++ '/' :: (m2 ++ ['/']))
          = (y2, '/' :: (m2 ++ ['/'])) := spanP_exact hy2slug (by decide)
      have hsp1b := hsp1
      rw [show w ++ '/' :: ['r', 'e', 's', 'e', 't', '/'] = w ++ resetChars
          from rfl, hEq, hsp2] at hsp1b
      rw [Prod.mk.injEq] at hsp1b
      have htail := hsp1b.2
      have hlen := congrArg List.length htail
      simp at hlen
      omega
  have harchy : matchArchiveYear (w ++ resetChars) = false := by
    cases hb : matchArchiveYear (w ++ resetChars) with
    | false => rfl
    | true =>
      exfalso
      obtain ⟨y2, hEq, hy2, hy2len⟩ := matchArchiveYear_shape hb
      have hEq2 : w ++ resetChars = archStem ++ '/' :: (y2 ++ ['/']) := by
        rw [hEq]
        simp [archChars, archStem]
      have hsp2 : spanP isSlugC (archStem ++ '/' :: (y2 ++ ['/']))
          = (archStem, '/' :: (y2 ++ ['/'])) :=
        spanP_exact (by decide) (by decide)
      have hsp1b := hsp1
      rw [show w ++ '/' :: ['r', 'e', 's', 'e', 't', '/'] = w ++ resetChars
          from rfl, hEq2, hsp2] at hsp1b
      rw [Prod.mk.injEq] at hsp1b
      have htail := hsp1b.2
      have hlen := congrArg List.length htail
      simp at hlen
      omega
  simp [resolve, hEmpty, hgd, hgdym, hyr, hym, hymd, harch, harchy, harchym,
    hslug, hpos]

/-- C8, counterexample: the claim requires every slug of word characters,
underscores and hyphens — including slugs that are exactly four digits — to
resolve to event detail; but URL patterns are tried in source order, so the
path `2024/` (a four-digit slug) resolves to the year-windowed list, not to
detail. -/
theorem C8_counterexample :
    resolve ['2', '0', '2', '4', '/'] = some Route.listByYear ∧
    (resolve ['2', '0', '2', '4', '/']).map Route.view ≠ some View.event_detail ∧
    (∀ c ∈ ['2', '0', '2', '4'], isSlugC c = true) := by decide

/-- C8 (amended): each path of the route surface resolves, first-match-wins
in source order, to its stated operation: `/` to the current list,
`get-dates/` and `get-dates/{digits}/{digits}/` to calendar dates,
`{yyyy}/`, `{yyyy}/{m...}/`, `{yyyy}/{m...}/{d...}/` to the windowed list,
`archive/` (and year/month forms) to the windowed archive list; a slug of
word characters, underscores and hyphens resolves to detail provided it
does not collide with an earlier pattern (it is not `get-dates`, not
`archive`, and not exactly four digits — those resolve to the earlier
routes); `{slug}/reset/` resolves to registration reset for every slug. -/
theorem C8_routes :
    (resolve [] = some Route.eventsList ∧
      Route.view .eventsList = View.event_list) ∧
    (resolve gdChars = some Route.getDates ∧
      Route.view .getDates = View.event_dates) ∧
    (∀ y m : List Char, (∀ c ∈ y, isDigitC c = true) → y ≠ [] →
      (∀ c ∈ m, isDigitC c = true) → m ≠ [] →
      resolve (gdChars ++ (y ++ '/' :: (m ++ ['/']))) = some Route.getDatesYM ∧
      Route.view .getDatesYM = View.event_dates) ∧
    (∀ y : List Char, (∀ c ∈ y, isDigitC c = true) → y.length = 4 →
      resolve (y ++ ['/']) = some Route.listByYear ∧
      Route.view .listByYear = View.event_list) ∧
    (∀ y m : List Char, (∀ c ∈ y, isDigitC c = true) → y.length = 4 →
      (∀ c ∈ m, isDigitC c = true) → (m.length = 1 ∨ m.length = 2) →
      resolve (y ++ '/' :: (m ++ ['/'])) = some Route.listByMonth ∧
      Route.view .listByMonth = View.event_list) ∧
    (∀ y m d : List Char, (∀ c ∈ y, isDigitC c = true) → y.length = 4 →
      (∀ c ∈ m, isDigitC c = true) → (m.length = 1 ∨ m.length = 2) →
      (∀ c ∈ d, isDigitC c = true) → (d.length = 1 ∨ d.length = 2) →
      resolve (y ++ '/' :: (m ++ '/' :: (d ++ ['/']))) = some Route.listByDay ∧
      Route.view .listByDay = View.event_list) ∧
    (resolve archChars = some Route.archive ∧
      Route.view .archive = View.event_list_archive) ∧
    (∀ y : List Char, (∀ c ∈ y, isDigitC c = true) → y.length = 4 →
      resolve (archChars ++ (y ++ ['/'])) = some Route.archiveByYear ∧
      Route.view .archiveByYear = View.event_list_archive) ∧
    (∀ y m : List Char, (∀ c ∈ y, isDigitC c = true) → y.length = 4 →
      (∀ c ∈ m, isDigitC c = true) → (m.length = 1 ∨ m.length = 2) →
      resolve (archChars ++ (y ++ '/' :: (m ++ ['/']))) = some Route.archiveByMonth ∧
      Route.view .archiveByMonth = View.event_list_archive) ∧
    (∀ w : List Char, (∀ c ∈ w, isSlugC c = true) → w ≠ [] →
      w ≠ gdStem → w ≠ archStem →
      ¬(w.length = 4 ∧ ∀ c ∈ w, isDigitC c = true) →
      resolve (w ++ ['/']) = some Route.detail ∧
      Route.view .detail = View.event_detail) ∧
    (∀ w : List Char, (∀ c ∈ w, isSlugC c = true) → w ≠ [] →
      resolve (w ++ resetChars) = some Route.registrationReset ∧
      Route.view .registrationReset = View.reset_event_registration) := by
  refine ⟨⟨by decide, rfl⟩, ⟨by decide, rfl⟩, ?_, ?_, ?_, ?_, ⟨by decide, rfl⟩,
    ?_, ?_, ?_, ?_⟩
  · intro y m hy hyne hm hmne
    exact ⟨resolve_getDatesYM y m hy hyne hm hmne, rfl⟩
  · intro y hy hlen
    exact ⟨resolve_year y hy hlen, rfl⟩
  · intro y m hy hylen hm hmlen
    exact ⟨resolve_yearMonth y m hy hylen hm hmlen, rfl⟩
  · intro y m d hy hylen hm hmlen hd hdlen
    exact ⟨resolve_yearMonthDay y m d hy hylen hm hmlen hd hdlen, rfl⟩
  · intro y hy hlen
    exact ⟨resolve_archiveYear y hy hlen, rfl⟩
  · intro y m hy hylen hm hmlen
    exact ⟨resolve_archiveYM y m hy hylen hm hmlen, rfl⟩
  · intro w hw hne h1 h2 h3
    exact ⟨resolve_detail w hw hne h1 h2 h3, rfl⟩
  · intro w hw hne
    exact ⟨resolve_reset w hw hne, rfl⟩

/-- C8 witness: the slug `my-event_1` resolves to detail, at a concrete
application of the route theorem. -/
theorem C8_witness :
    resolve (['m', 'y', '-', 'e', 'v', 'e', 'n', 't', '_', '1'] ++ ['/'])
      = some Route.detail :=
  (C8_routes.2.2.2.2.2.2.2.2.2.1
    ['m', 'y', '-', 'e', 'v', 'e', 'n', 't', '_', '1']
    (by decide) (by decide) (by decide) (by decide) (by decide)).1
